import Mathlib

/-!
Verification of the `kvstore` append-only key/value store (`ActionKV`).

Shallow embedding of `src/kvstore/mod.rs` (`ActionKV`).  Bytes are `Nat`s
(< 256 for real data), the log file is a `List Nat`, Rust `String`s are
their UTF-8 byte sequences (`List Nat`), and the `HashMap<String, u64>`
index is an association list.  Machine integers are `Nat` with explicit
`% 2 ^ 32` where the source performs `u32` arithmetic or `as u32` casts.

The on-disk record format (source `insert_in_database`, lines 114-141):
checksum (4 bytes BE) ++ key_length (4 bytes BE) ++ value_length
(4 bytes BE) ++ key bytes ++ value bytes, with the checksum the
CRC-32/CKSUM of key bytes ++ value bytes (crate `crc`, `CRC_32_CKSUM`).
-/

/-! ## CRC-32/CKSUM (crate `crc`, algorithm `CRC_32_CKSUM`)

Parameters from the crc-catalog: width 32, poly `0x04C11DB7`, init 0,
refin false, refout false, xorout `0xFFFFFFFF`.  MSB-first (non-reflected):
each byte is xor-ed into the top of the 32-bit state and the state is
shifted 8 times through the polynomial. -/

def crcPoly : Nat := 0x04C11DB7

/-- One MSB-first shift of the 32-bit CRC state. -/
def crcRound (c : Nat) : Nat :=
  let sh := (c <<< 1) % 2 ^ 32
  if c.testBit 31 then sh ^^^ crcPoly else sh

/-- Absorb one byte into the CRC state (8 polynomial shifts). -/
def crcStep (c b : Nat) : Nat :=
  crcRound^[8] (c ^^^ (b <<< 24))

/-- CRC state after absorbing a byte string, starting from init = 0. -/
def crcBytes (data : List Nat) : Nat :=
  data.foldl crcStep 0

/-- `crc::Crc::<u32>::new(&crc::CRC_32_CKSUM).checksum(data)`:
the absorbed state xor-ed with xorout = `0xFFFFFFFF`. -/
def crc32 (data : List Nat) : Nat :=
  crcBytes data ^^^ 0xFFFFFFFF

/-! ## Big-endian `u32` serialization (crate `byteorder`, `BigEndian`) -/

/-- `write_u32::<BigEndian>`: the four big-endian bytes of `n % 2^32`. -/
def u32be (n : Nat) : List Nat :=
  [n / 2 ^ 24 % 256, n / 2 ^ 16 % 256, n / 2 ^ 8 % 256, n % 256]

/-- `read_u32::<BigEndian>`: reads exactly 4 bytes (via `read_exact`);
`none` models the `UnexpectedEof` error when fewer than 4 bytes remain. -/
def readU32 : List Nat → Option (Nat × List Nat)
  | b0 :: b1 :: b2 :: b3 :: rest =>
      some (b0 * 2 ^ 24 + b1 * 2 ^ 16 + b2 * 2 ^ 8 + b3, rest)
  | _ => none

/-! ## `String::from_utf8_lossy`

Modelled byte-level: valid UTF-8 sequences are copied through unchanged,
each maximal invalid subpart is replaced by the replacement character
U+FFFD (bytes `EF BF BD`), with the skip lengths of Rust's
`core::str::validations` (after a valid lead byte, the valid prefix of
the sequence is consumed before the replacement is emitted). -/

/-- Replacement character U+FFFD as UTF-8 bytes. -/
def replChar : List Nat := [0xEF, 0xBF, 0xBD]

/-- Is `b` a UTF-8 continuation byte (`0x80..=0xBF`)? -/
def isCont (b : Nat) : Bool := decide (0x80 ≤ b) && decide (b ≤ 0xBF)

/-- Valid second byte of a three-byte sequence with lead `b`. -/
def cont3ok (b c : Nat) : Bool :=
  if b = 0xE0 then decide (0xA0 ≤ c) && decide (c ≤ 0xBF)
  else if b = 0xED then decide (0x80 ≤ c) && decide (c ≤ 0x9F)
  else isCont c

/-- Valid second byte of a four-byte sequence with lead `b`. -/
def cont4ok (b c : Nat) : Bool :=
  if b = 0xF0 then decide (0x90 ≤ c) && decide (c ≤ 0xBF)
  else if b = 0xF4 then decide (0x80 ≤ c) && decide (c ≤ 0x8F)
  else isCont c

/-- Byte-level model of `String::from_utf8_lossy(bytes).to_string()`
(identity on valid UTF-8, which is every actual Rust `String`). -/
def lossyDecode : List Nat → List Nat
  | [] => []
  | b :: rest =>
    if b < 0x80 then b :: lossyDecode rest
    else if b < 0xC2 then replChar ++ lossyDecode rest
    else if b < 0xE0 then
      match rest with
      | [] => replChar ++ lossyDecode []
      | c :: r2 =>
        if isCont c then b :: c :: lossyDecode r2
        else replChar ++ lossyDecode (c :: r2)
    else if b < 0xF0 then
      match rest with
      | [] => replChar ++ lossyDecode []
      | c :: r2 =>
        if cont3ok b c then
          match r2 with
          | [] => replChar ++ lossyDecode []
          | d :: r3 =>
            if isCont d then b :: c :: d :: lossyDecode r3
            else replChar ++ lossyDecode (d :: r3)
        else replChar ++ lossyDecode (c :: r2)
    else if b < 0xF5 then
      match rest with
      | [] => replChar ++ lossyDecode []
      | c :: r2 =>
        if cont4ok b c then
          match r2 with
          | [] => replChar ++ lossyDecode []
          | d :: r3 =>
            if isCont d then
              match r3 with
              | [] => replChar ++ lossyDecode []
              | e :: r4 =>
                if isCont e then b :: c :: d :: e :: lossyDecode r4
                else replChar ++ lossyDecode (e :: r4)
            else replChar ++ lossyDecode (d :: r3)
        else replChar ++ lossyDecode (c :: r2)
    else replChar ++ lossyDecode rest

/-! ## `process_record` (source lines 144-171) -/

/-- Outcome of `ActionKV::process_record`.  `eof` is an `Err` of kind
`UnexpectedEof` raised by one of the three `read_u32` calls;
`mismatch` is the `InvalidData` checksum-mismatch error; `panicRes`
models the Rust panic of `data.split_at(key_length as usize)` when
`key_length` exceeds the number of payload bytes actually read
(the source performs no bounds check before the split). -/
inductive PRes where
  | ok (key value rest : List Nat)
  | eof
  | mismatch (saved computed : Nat)
  | panicRes
  deriving DecidableEq

/-- `ActionKV::process_record::<R>(file)` on the byte stream `input`.

Line by line: three `read_u32::<BigEndian>` header reads;
`data_length = key_length + value_length` is `u32` addition (wrapping in
release builds, hence the `% 2 ^ 32`); `take(data_length).read_to_end`
reads `min data_length (remaining bytes)` without error; the recomputed
CRC is compared with the stored one *before* the payload is split at
`key_length`, and the parsed key and value are decoded lossily. -/
def processRecord (input : List Nat) : PRes :=
  match readU32 input with
  | none => .eof
  | some (savedChecksum, r1) =>
    match readU32 r1 with
    | none => .eof
    | some (keyLength, r2) =>
      match readU32 r2 with
      | none => .eof
      | some (valueLength, r3) =>
        let dataLength := (keyLength + valueLength) % 2 ^ 32
        let data := r3.take dataLength
        let checksum := crc32 data
        if savedChecksum ≠ checksum then .mismatch savedChecksum checksum
        else if keyLength ≤ data.length then
          .ok (lossyDecode (data.take keyLength)) (lossyDecode (data.drop keyLength))
            (r3.drop dataLength)
        else .panicRes

/-! ## The store state -/

/-- Errors surfaced by the store operations.  `notFound` and `mismatch`
are `ErrorKind::InvalidData` errors, `eofErr` is an `UnexpectedEof`
propagated out of a targeted `process_record` call, and `panicked`
records that the underlying call would panic (not an `Err` in Rust;
no claim distinguishes a surfaced panic from an error return). -/
inductive DbError where
  | notFound
  | eofErr
  | mismatch (saved computed : Nat)
  | panicked
  deriving DecidableEq

/-- `ActionKV { file, database }` plus the one extra piece of `File`
state the source manipulates: the shared seek cursor of the file handle
(`stream_position` / `seek` in `insert_in_database`, `load` and
`get_record_at_position` all act on the same `File`). -/
structure ActionKV where
  file : List Nat
  cursor : Nat
  database : List (List Nat × Nat)
  deriving DecidableEq

/-- `HashMap::get` on the modelled index. -/
def lookupAssoc : List (List Nat × Nat) → List Nat → Option Nat
  | [], _ => none
  | (k, p) :: t, key => if k = key then some p else lookupAssoc t key

/-- `HashMap::insert` on the modelled index (replaces an existing entry). -/
def insertAssoc : List (List Nat × Nat) → List Nat → Nat → List (List Nat × Nat)
  | [], key, pos => [(key, pos)]
  | (k, p) :: t, key, pos =>
      if k = key then (key, pos) :: t else (k, p) :: insertAssoc t key pos

/-- The bytes `insert_in_database` appends for `key`/`value`: checksum,
then the two lengths as `u32` casts of the `usize` lengths (`as u32`
truncates, hence `% 2 ^ 32`), then the payload. -/
def encodeRecord (key value : List Nat) : List Nat :=
  u32be (crc32 (key ++ value)) ++ u32be (key.length % 2 ^ 32) ++
    u32be (value.length % 2 ^ 32) ++ (key ++ value)

/-- `ActionKV::insert_in_database` (source lines 114-141).

`current_position` is `stream_position()` taken *before* the
`seek(SeekFrom::End(0))` — i.e. the stale shared cursor, not necessarily
the offset at which the record is written.  The file is in append mode,
so the bytes land at the end of file and the cursor then rests at the
new end.  Returns `(current_position, new state)`; the write itself
cannot fail in this pure model (see `deleteOutcome` for the error path
the source discards). -/
def insertInDatabase (st : ActionKV) (key value : List Nat) : Nat × ActionKV :=
  let record := encodeRecord key value
  (st.cursor,
   { st with file := st.file ++ record,
             cursor := st.file.length + record.length })

/-- `ActionKV::insert` (source lines 68-72): append, then point the
index entry for `key` at the returned position. -/
def ActionKV.insert (st : ActionKV) (key value : List Nat) : ActionKV :=
  let r := insertInDatabase st key value
  { r.2 with database := insertAssoc r.2.database key r.1 }

/-- `ActionKV::update` (source lines 78-81): delegates to `insert`. -/
def update (st : ActionKV) (key value : List Nat) : ActionKV :=
  st.insert key value

/-- `ActionKV::delete` (source lines 38-48).  Mirrors `&mut self`:
returns the `Result` together with the (possibly mutated) state.
If the key is absent, `Err(InvalidData)`.  Otherwise the source runs
`let _ = self.insert_in_database(&key, &value)` — the tombstone is
appended but the returned position is *discarded* and
`self.database` is left untouched. -/
def delete (st : ActionKV) (key : List Nat) : Except DbError Unit × ActionKV :=
  match lookupAssoc st.database key with
  | none => (.error .notFound, st)
  | some _ =>
    let r := insertInDatabase st key []
    (.ok (), r.2)

/-- Control-flow of `ActionKV::delete` lines 44-47 with the outcome of
the `insert_in_database` call made explicit as a parameter: whatever
that `Result<u64>` is — including an I/O error — it is bound to `_`
and dropped, and `Ok(())` is returned. -/
def deleteOutcome (keyPresent : Bool) (appendResult : Except DbError Nat) :
    Except DbError Unit :=
  if keyPresent then
    let _ := appendResult
    .ok ()
  else .error .notFound

/-- Cursor state after a targeted read: `get_record_at_position` seeks
the shared cursor to `position` and reads through a fresh 8 KiB
`BufReader`, whose prefetch leaves the underlying cursor past the bytes
logically consumed (exactly `min (position + 8192) file.length` whenever
the record fits in one buffer fill; no claim observes this value). -/
def afterRead (st : ActionKV) (position : Nat) : ActionKV :=
  { st with cursor := min (position + 8192) st.file.length }

/-- `ActionKV::get` (source lines 52-64) composed with
`get_record_at_position` (lines 106-111): index lookup, then one
`process_record` at the stored offset; the record's (lossily decoded)
value is returned. -/
def ActionKV.get (st : ActionKV) (key : List Nat) : Except DbError (List Nat) × ActionKV :=
  match lookupAssoc st.database key with
  | none => (.error .notFound, st)
  | some position =>
    match processRecord (st.file.drop position) with
    | .ok _ v _ => (.ok v, afterRead st position)
    | .eof => (.error .eofErr, afterRead st position)
    | .mismatch s c => (.error (.mismatch s c), afterRead st position)
    | .panicRes => (.error .panicked, afterRead st position)

/-- Outcome of `ActionKV::load` (source lines 84-103). -/
inductive LoadRes where
  | done (database : List (List Nat × Nat))
  | corrupt (saved computed : Nat)
  | panicked
  deriving DecidableEq

theorem readU32_length {l : List Nat} {n : Nat} {r : List Nat}
    (h : readU32 l = some (n, r)) : r.length + 4 = l.length := by
  unfold readU32 at h
  split at h
  · injection h with h'
    injection h' with hA hB
    subst hB
    simp [List.length_cons]
  · simp at h

theorem processRecord_ok_length {input k v rest : List Nat}
    (h : processRecord input = .ok k v rest) : rest.length < input.length := by
  unfold processRecord at h
  split at h
  · simp at h
  · rename_i n0 r1 hr0
    split at h
    · simp at h
    · rename_i n1 r2 hr1
      split at h
      · simp at h
      · rename_i n2 r3 hr2
        simp only [] at h
        split at h
        · simp at h
        · split at h
          · injection h with ha hb hc
            have h1 := readU32_length hr0
            have h2 := readU32_length hr1
            have h3 := readU32_length hr2
            have h4 : rest.length ≤ r3.length := by
              rw [← hc]; simp
            omega
          · simp at h

/-- The loop body of `ActionKV::load`: `remaining` is the unread suffix
of the file, `pos` the `stream_position` recorded before each record
(the `BufReader`'s buffer-aware logical position), `db` the index being
rebuilt.  `UnexpectedEof` from `process_record` breaks the loop
successfully; any other error aborts it; on success the decoded key is
mapped to the recorded offset and the scan continues. -/
def loadScan (remaining : List Nat) (pos : Nat) (db : List (List Nat × Nat)) :
    LoadRes :=
  match h : processRecord remaining with
  | .eof => .done db
  | .mismatch s c => .corrupt s c
  | .panicRes => .panicked
  | .ok k _ rest =>
      loadScan rest (pos + (remaining.length - rest.length)) (insertAssoc db k pos)
termination_by remaining.length
decreasing_by exact processRecord_ok_length h

/-- `ActionKV::open` (source lines 24-34) on a file with contents
`file` (creating an absent file yields `file = []`): start with an empty
index, run `load` from offset 0, and return the handle.  After the scan
the reader has consumed the whole file, so the shared cursor rests at
end of file. -/
def openDb (file : List Nat) : Except DbError ActionKV :=
  match loadScan file 0 [] with
  | .done db => .ok ⟨file, file.length, db⟩
  | .corrupt s c => .error (.mismatch s c)
  | .panicked => .error .panicked

/-- The handle produced by `openDb []`: a freshly created, empty store. -/
def freshStore : ActionKV := ⟨[], 0, []⟩

/-- A key of `2 ^ 32` NUL bytes (a legal Rust `String`), whose `usize`
length is truncated to `0` by the `as u32` casts in `insert_in_database`. -/
def bigKey : List Nat := List.replicate (2 ^ 32) 0

/-- `bytes` with bit `b` of byte `j` flipped (the on-disk corruption of
the corruption-detection property). -/
def flipBit (bytes : List Nat) (j b : Nat) : List Nat :=
  bytes.set j (bytes.getD j 0 ^^^ 1 <<< b)

/-- The on-disk bytes of the record for `key`/`value` after bit `b` of
payload byte `j` was flipped: the header (including the stored checksum
of the *original* payload) is intact, the payload is corrupted. -/
def corruptRecord (key value : List Nat) (j b : Nat) : List Nat :=
  u32be (crc32 (key ++ value)) ++ u32be (key.length % 2 ^ 32) ++
    u32be (value.length % 2 ^ 32) ++ flipBit (key ++ value) j b

/-- The spec's index invariant: every index entry points at a
structurally valid, checksum-valid record whose (decoded) key field
equals the index key. -/
def IndexOk (st : ActionKV) : Prop :=
  ∀ k p, lookupAssoc st.database k = some p →
    ∃ v rest, processRecord (st.file.drop p) = .ok k v rest

/-- A log consisting of the records for a list of key/value pairs. -/
def encodeLog (pairs : List (List Nat × List Nat)) : List Nat :=
  (pairs.map fun p => encodeRecord p.1 p.2).flatten

deriving instance DecidableEq for Except

/-! ## Arithmetic facts about the CRC -/

theorem crcRound_lt (c : Nat) : crcRound c < 2 ^ 32 := by
  unfold crcRound
  split
  · exact Nat.xor_lt_two_pow (Nat.mod_lt _ (by norm_num)) (by norm_num [crcPoly])
  · exact Nat.mod_lt _ (by norm_num)

theorem crcRound_eq (c : Nat) :
    crcRound c = ((c <<< 1) % 2 ^ 32) ^^^ (if c.testBit 31 then crcPoly else 0) := by
  unfold crcRound
  split <;> simp

theorem xor_xor_comm4 (w x y z : Nat) :
    (w ^^^ x) ^^^ (y ^^^ z) = (w ^^^ y) ^^^ (x ^^^ z) := by
  rw [Nat.xor_assoc, ← Nat.xor_assoc x y z, Nat.xor_comm x y, Nat.xor_assoc y x z,
    ← Nat.xor_assoc]

theorem ite_xor_ite (p : Nat) (ta tb : Bool) :
    (if ta then p else 0) ^^^ (if tb then p else 0) = (if ta.xor tb then p else 0) := by
  cases ta <;> cases tb <;> simp

theorem shiftLeft_one_mod_xor (a b : Nat) :
    ((a ^^^ b) <<< 1) % 2 ^ 32 = ((a <<< 1) % 2 ^ 32) ^^^ ((b <<< 1) % 2 ^ 32) := by
  apply Nat.eq_of_testBit_eq
  intro i
  simp only [Nat.testBit_mod_two_pow, Nat.testBit_xor, Nat.testBit_shiftLeft]
  by_cases h32 : i < 32 <;> by_cases h1 : 1 ≤ i <;>
    simp [h32, h1, Nat.testBit_xor]

theorem shiftLeft_xor (a b k : Nat) : (a ^^^ b) <<< k = (a <<< k) ^^^ (b <<< k) := by
  apply Nat.eq_of_testBit_eq
  intro i
  simp only [Nat.testBit_xor, Nat.testBit_shiftLeft]
  by_cases hk : k ≤ i <;> simp [hk, Nat.testBit_xor]

/-- `crcRound` is linear over GF(2): it commutes with xor. -/
theorem crcRound_xor (a b : Nat) :
    crcRound a ^^^ crcRound b = crcRound (a ^^^ b) := by
  rw [crcRound_eq a, crcRound_eq b, crcRound_eq (a ^^^ b), Nat.testBit_xor,
    shiftLeft_one_mod_xor, xor_xor_comm4, ite_xor_ite]

theorem crcRound_ne_zero {c : Nat} (h0 : c ≠ 0) (h32 : c < 2 ^ 32) :
    crcRound c ≠ 0 := by
  rw [crcRound_eq]
  cases hb : c.testBit 31 with
  | false =>
    simp only [hb, Bool.false_eq_true, if_false, Nat.xor_zero]
    have hlt : c < 2 ^ 31 := by
      rcases Nat.lt_or_ge c (2 ^ 31) with h' | h'
      · exact h'
      · exfalso
        rw [Nat.testBit_to_div_mod] at hb
        simp at hb
        omega
    rw [Nat.shiftLeft_eq, Nat.mod_eq_of_lt (by norm_num at hlt ⊢; omega)]
    norm_num
    omega
  | true =>
    simp only [hb, if_true]
    intro hc
    have h1 : ((c <<< 1) % 2 ^ 32 ^^^ crcPoly).testBit 0 = false := by
      rw [hc]; simp
    rw [Nat.testBit_xor, Nat.testBit_mod_two_pow, Nat.testBit_shiftLeft] at h1
    norm_num at h1
    exact absurd h1 (by decide)

/-- Linearity of iterated rounds. -/
theorem crcRound_iterate_xor (n a b : Nat) :
    crcRound^[n] a ^^^ crcRound^[n] b = crcRound^[n] (a ^^^ b) := by
  induction n generalizing a b with
  | zero => simp
  | succ m ih =>
    rw [Function.iterate_succ_apply, Function.iterate_succ_apply,
      Function.iterate_succ_apply, ih, crcRound_xor]

theorem crcRound_iterate_ne_zero (n : Nat) {a : Nat} (h0 : a ≠ 0) (h32 : a < 2 ^ 32) :
    crcRound^[n] a ≠ 0 ∧ crcRound^[n] a < 2 ^ 32 := by
  induction n with
  | zero => exact ⟨h0, h32⟩
  | succ m ih =>
    rw [Function.iterate_succ_apply']
    exact ⟨crcRound_ne_zero ih.1 ih.2, crcRound_lt _⟩

/-- The xor of two `crcStep`s is determined by the xors of the inputs. -/
theorem crcStep_xor (s1 s2 x y : Nat) :
    crcStep s1 x ^^^ crcStep s2 y = crcRound^[8] ((s1 ^^^ s2) ^^^ ((x ^^^ y) <<< 24)) := by
  unfold crcStep
  rw [crcRound_iterate_xor, xor_xor_comm4, shiftLeft_xor]

/-- Distinct CRC states stay distinct while absorbing a common suffix. -/
theorem crcFold_ne (suf : List Nat) :
    forall s1 s2 : Nat, s1 ^^^ s2 ≠ 0 → s1 ^^^ s2 < 2 ^ 32 →
      suf.foldl crcStep s1 ≠ suf.foldl crcStep s2 := by
  induction suf with
  | nil =>
    intro s1 s2 h0 _
    simpa [Nat.xor_ne_zero] using h0
  | cons y t ih =>
    intro s1 s2 h0 h32
    simp only [List.foldl_cons]
    have hd : crcStep s1 y ^^^ crcStep s2 y = crcRound^[8] (s1 ^^^ s2) := by
      rw [crcStep_xor, Nat.xor_self, Nat.zero_shiftLeft, Nat.xor_zero]
    have hne := crcRound_iterate_ne_zero 8 h0 h32
    exact ih _ _ (hd ▸ hne.1) (hd ▸ hne.2)

/-- Flipping one bit of one byte changes the absorbed CRC state. -/
theorem crcBytes_flip_ne (front suf : List Nat) (x bpos : Nat) (hb : bpos < 8) :
    crcBytes (front ++ x :: suf) ≠ crcBytes (front ++ (x ^^^ 1 <<< bpos) :: suf) := by
  unfold crcBytes
  rw [List.foldl_append, List.foldl_append, List.foldl_cons, List.foldl_cons]
  set s := front.foldl crcStep 0 with hs
  have hd : crcStep s x ^^^ crcStep s (x ^^^ 1 <<< bpos) = crcRound^[8] (1 <<< bpos <<< 24) := by
    rw [crcStep_xor, Nat.xor_self, Nat.zero_xor, Nat.xor_cancel_left]
  have hpow : (1 : Nat) <<< bpos <<< 24 = 2 ^ (bpos + 24) := by
    rw [Nat.shiftLeft_eq, Nat.shiftLeft_eq, one_mul, ← pow_add]
  have h0 : (1 : Nat) <<< bpos <<< 24 ≠ 0 := by
    rw [hpow]; positivity
  have h32 : (1 : Nat) <<< bpos <<< 24 < 2 ^ 32 := by
    rw [hpow]
    exact Nat.pow_lt_pow_right (by norm_num) (by omega)
  have hne := crcRound_iterate_ne_zero 8 h0 h32
  exact crcFold_ne suf _ _ (hd ▸ hne.1) (hd ▸ hne.2)

theorem crcStep_lt (c b : Nat) : crcStep c b < 2 ^ 32 := by
  unfold crcStep
  rw [show (8 : Nat) = 7 + 1 from rfl, Function.iterate_succ_apply']
  exact crcRound_lt _

theorem crcFoldl_lt (l : List Nat) : forall s : Nat, s < 2 ^ 32 → l.foldl crcStep s < 2 ^ 32 := by
  induction l with
  | nil => intro s hs; simpa using hs
  | cons b t ih => intro s _; exact ih _ (crcStep_lt s b)

theorem crcBytes_lt (data : List Nat) : crcBytes data < 2 ^ 32 :=
  crcFoldl_lt data 0 (by norm_num)

theorem crc32_lt (data : List Nat) : crc32 data < 2 ^ 32 :=
  Nat.xor_lt_two_pow (crcBytes_lt data) (by norm_num)

/-- Absorbing all-zero bytes from the all-zero state stays at zero. -/
theorem crcBytes_replicate_zero (n : Nat) : crcBytes (List.replicate n 0) = 0 := by
  unfold crcBytes
  induction n with
  | zero => rfl
  | succ m ih =>
    rw [List.replicate_succ, List.foldl_cons]
    have h0 : crcStep 0 0 = 0 := by decide
    rw [h0]
    exact ih

/-! ## Parsing lemmas -/

theorem readU32_none {l : List Nat} (h : l.length < 4) : readU32 l = none := by
  rcases l with _ | ⟨b0, _ | ⟨b1, _ | ⟨b2, _ | ⟨b3, r⟩⟩⟩⟩ <;>
    first
      | rfl
      | (exfalso; simp only [List.length_cons] at h; omega)

theorem readU32_u32be {n : Nat} (r : List Nat) (h : n < 2 ^ 32) :
    readU32 (u32be n ++ r) = some (n, r) := by
  simp only [u32be, List.cons_append, List.nil_append, readU32, Option.some.injEq,
    Prod.mk.injEq]
  exact ⟨by omega, trivial⟩

/-- Any stream shorter than the 12-byte header makes `process_record`
fail with `UnexpectedEof` in one of the three header reads. -/
theorem processRecord_short {input : List Nat} (h : input.length < 12) :
    processRecord input = .eof := by
  unfold processRecord
  rcases hr0 : readU32 input with _ | ⟨n0, r1⟩
  · rfl
  · have h1 := readU32_length hr0
    rcases hr1 : readU32 r1 with _ | ⟨n1, r2⟩
    · simp only [hr1]
    · have h2 := readU32_length hr1
      have h3 : r2.length < 4 := by omega
      simp only [hr1, readU32_none h3]

/-- Parsing the encoding of a record (with arbitrary following bytes)
succeeds and consumes exactly the record. -/
theorem processRecord_encode (k v tail : List Nat)
    (hsum : k.length + v.length < 2 ^ 32) :
    processRecord (encodeRecord k v ++ tail) =
      .ok (lossyDecode k) (lossyDecode v) tail := by
  have hk : k.length < 2 ^ 32 := by omega
  have hv : v.length < 2 ^ 32 := by omega
  have e1 : encodeRecord k v ++ tail =
      u32be (crc32 (k ++ v)) ++ (u32be k.length ++ (u32be v.length ++ ((k ++ v) ++ tail))) := by
    unfold encodeRecord
    rw [Nat.mod_eq_of_lt hk, Nat.mod_eq_of_lt hv]
    simp [List.append_assoc]
  rw [e1]
  unfold processRecord
  simp only [readU32_u32be _ (crc32_lt (k ++ v)), readU32_u32be _ hk, readU32_u32be _ hv]
  have hdata : ((k ++ v) ++ tail).take ((k.length + v.length) % 2 ^ 32) = k ++ v := by
    rw [Nat.mod_eq_of_lt hsum, List.take_left' (by simp)]
  have hrest : ((k ++ v) ++ tail).drop ((k.length + v.length) % 2 ^ 32) = tail := by
    rw [Nat.mod_eq_of_lt hsum, List.drop_left' (by simp)]
  rw [hdata, hrest]
  rw [if_neg (by simp)]
  rw [if_pos (by simp)]
  rw [List.take_left, List.drop_left]

/-! ## `loadScan` unfolding lemmas (the function is defined by
well-founded recursion, so we expose its three behaviours as equations) -/

theorem loadScan_eof {remaining : List Nat} {pos : Nat} {db : List (List Nat × Nat)}
    (h : processRecord remaining = .eof) : loadScan remaining pos db = .done db := by
  unfold loadScan
  split
  · rfl
  · rename_i heq; rw [h] at heq; cases heq
  · rename_i heq; rw [h] at heq; cases heq
  · rename_i heq; rw [h] at heq; cases heq

theorem loadScan_corrupt {remaining : List Nat} {pos : Nat} {db : List (List Nat × Nat)}
    {s c : Nat} (h : processRecord remaining = .mismatch s c) :
    loadScan remaining pos db = .corrupt s c := by
  unfold loadScan
  split
  · rename_i heq; rw [h] at heq; cases heq
  · rename_i heq; rw [h] at heq; injection heq with h1 h2; rw [h1, h2]
  · rename_i heq; rw [h] at heq; cases heq
  · rename_i heq; rw [h] at heq; cases heq

theorem loadScan_ok {remaining k v rest : List Nat} {pos : Nat}
    {db : List (List Nat × Nat)} (h : processRecord remaining = .ok k v rest) :
    loadScan remaining pos db =
      loadScan rest (pos + (remaining.length - rest.length)) (insertAssoc db k pos) := by
  conv_lhs => unfold loadScan
  split
  · rename_i heq; rw [h] at heq; cases heq
  · rename_i heq; rw [h] at heq; cases heq
  · rename_i heq; rw [h] at heq; cases heq
  · rename_i k' v' rest' heq; rw [h] at heq
    injection heq with h1 h2 h3
    subst h1; subst h3
    rfl

/-! ## Index lemmas -/

theorem lookupAssoc_insertAssoc_self (db : List (List Nat × Nat)) (key : List Nat)
    (pos : Nat) : lookupAssoc (insertAssoc db key pos) key = some pos := by
  induction db with
  | nil => simp [insertAssoc, lookupAssoc]
  | cons hd t ih =>
    obtain ⟨k, p⟩ := hd
    unfold insertAssoc
    by_cases hk : k = key
    · simp [hk, lookupAssoc]
    · simp only [if_neg hk]
      unfold lookupAssoc
      rw [if_neg hk]
      exact ih

theorem readU32_u32be_mod (n : Nat) (r : List Nat) :
    readU32 (u32be n ++ r) = some (n % 2 ^ 32, r) := by
  simp only [u32be, List.cons_append, List.nil_append, readU32, Option.some.injEq,
    Prod.mk.injEq]
  exact ⟨by omega, trivial⟩

theorem list_set_decomp {l : List Nat} {j : Nat} (h : j < l.length) (y : Nat) :
    l.set j y = l.take j ++ y :: l.drop (j + 1) := by
  induction l generalizing j with
  | nil => simp at h
  | cons a t ih =>
    cases j with
    | zero => simp
    | succ m =>
      simp only [List.set_cons_succ, List.take_succ_cons, List.drop_succ_cons,
        List.cons_append]
      congr 1
      exact ih (by simpa using h)

theorem list_self_decomp {l : List Nat} {j : Nat} (h : j < l.length) :
    l = l.take j ++ l.getD j 0 :: l.drop (j + 1) := by
  conv_lhs => rw [← List.take_append_drop j l]
  congr 1
  rw [List.drop_eq_getElem_cons h]
  congr 1
  simp [List.getD_eq_getElem?_getD, List.getElem?_eq_getElem h]

/-- A single bit flip anywhere in the data changes its CRC-32. -/
theorem crc32_flipBit_ne (data : List Nat) (j b : Nat) (hj : j < data.length)
    (hb : b < 8) : crc32 data ≠ crc32 (flipBit data j b) := by
  unfold crc32
  intro hEq
  have h1 : crcBytes data = crcBytes (flipBit data j b) := Nat.xor_left_inj.mp hEq
  unfold flipBit at h1
  rw [list_set_decomp hj] at h1
  nth_rewrite 1 [list_self_decomp hj] at h1
  exact absurd h1 (crcBytes_flip_ne (data.take j) (data.drop (j + 1)) (data.getD j 0) b hb)

/-- Reading a record whose payload was corrupted by a single bit flip
yields the checksum-mismatch error. -/
theorem processRecord_corruptRecord (key value rest : List Nat) (j b : Nat)
    (hj : j < (key ++ value).length) (hb : b < 8)
    (hsum : key.length + value.length < 2 ^ 32) :
    processRecord (corruptRecord key value j b ++ rest) =
      .mismatch (crc32 (key ++ value)) (crc32 (flipBit (key ++ value) j b)) := by
  have hk : key.length < 2 ^ 32 := by omega
  have hv : value.length < 2 ^ 32 := by omega
  have e1 : corruptRecord key value j b ++ rest =
      u32be (crc32 (key ++ value)) ++ (u32be key.length ++ (u32be value.length ++
        (flipBit (key ++ value) j b ++ rest))) := by
    unfold corruptRecord
    rw [Nat.mod_eq_of_lt hk, Nat.mod_eq_of_lt hv]
    simp [List.append_assoc]
  rw [e1]
  unfold processRecord
  simp only [readU32_u32be _ (crc32_lt (key ++ value)), readU32_u32be _ hk,
    readU32_u32be _ hv]
  have hlen : (flipBit (key ++ value) j b).length = key.length + value.length := by
    simp [flipBit]
  have hdata : (flipBit (key ++ value) j b ++ rest).take
      ((key.length + value.length) % 2 ^ 32) = flipBit (key ++ value) j b := by
    rw [Nat.mod_eq_of_lt hsum, List.take_left' hlen]
  rw [hdata]
  rw [if_pos (crc32_flipBit_ne (key ++ value) j b hj hb)]

theorem insert_cursor_eq_length (st : ActionKV) (k v : List Nat) :
    (st.insert k v).cursor = (st.insert k v).file.length := by
  simp [ActionKV.insert, insertInDatabase]

theorem insert_database_eq (st : ActionKV) (k v : List Nat) :
    (st.insert k v).database = insertAssoc st.database k st.cursor := by
  simp [ActionKV.insert, insertInDatabase]

theorem insert_file_eq (st : ActionKV) (k v : List Nat) :
    (st.insert k v).file = st.file ++ encodeRecord k v := by
  simp [ActionKV.insert, insertInDatabase]

/-- `get` after `insert` returns the inserted value, provided the shared
cursor was at end of file when `insert` ran (so the indexed offset is
the record's true offset) and the lengths fit in `u32`. -/
theorem get_insert_eq (st : ActionKV) (k v : List Nat)
    (hcur : st.cursor = st.file.length)
    (hsum : k.length + v.length < 2 ^ 32) (hv : lossyDecode v = v) :
    ((st.insert k v).get k).1 = .ok v := by
  unfold ActionKV.get
  rw [insert_database_eq]
  simp only [lookupAssoc_insertAssoc_self]
  rw [insert_file_eq]
  have hdrop : (st.file ++ encodeRecord k v).drop st.cursor = encodeRecord k v ++ [] := by
    rw [hcur, List.drop_left, List.append_nil]
  rw [hdrop, processRecord_encode k v [] hsum]
  simp only [hv]

theorem crcStep_zero_ne_zero {x : Nat} (h0 : x ≠ 0) (hx : x < 256) :
    crcStep 0 x ≠ 0 := by
  unfold crcStep
  rw [Nat.zero_xor]
  refine (crcRound_iterate_ne_zero 8 ?_ ?_).1
  · rw [Nat.shiftLeft_eq]
    positivity
  · rw [Nat.shiftLeft_eq]
    norm_num
    omega

theorem crcBytes_append (l1 l2 : List Nat) :
    crcBytes (l1 ++ l2) = l2.foldl crcStep (crcBytes l1) := by
  unfold crcBytes
  exact List.foldl_append _ _ _ _

theorem crcBytes_bigKey : crcBytes bigKey = 0 :=
  crcBytes_replicate_zero (2 ^ 32)

theorem bigKey_cons : bigKey = 0 :: List.replicate (2 ^ 32 - 1) 0 := by
  unfold bigKey
  nth_rewrite 1 [show (2 ^ 32 : Nat) = (2 ^ 32 - 1) + 1 from by norm_num]
  rw [List.replicate_succ]

theorem crcBytes_bigKey_append (x : Nat) :
    crcBytes (bigKey ++ [x]) = crcStep 0 x := by
  rw [crcBytes_append, crcBytes_bigKey]
  rfl

theorem crc32_bigKey_append_ne {x : Nat} (h0 : x ≠ 0) (hx : x < 256) :
    crc32 (bigKey ++ [x]) ≠ crc32 [0] := by
  unfold crc32
  intro hc
  have h1 : crcBytes (bigKey ++ [x]) = crcBytes [0] := Nat.xor_left_inj.mp hc
  rw [crcBytes_bigKey_append, show crcBytes [0] = 0 from by decide] at h1
  exact crcStep_zero_ne_zero h0 hx h1

/-- Reading back the record written for the `2 ^ 32`-byte NUL key: the
truncated length fields make the reader take a 1-byte payload whose
checksum cannot match the stored one. -/
theorem processRecord_bigRecord (x : Nat) (tail : List Nat) (h0 : x ≠ 0)
    (hx : x < 256) :
    processRecord (encodeRecord bigKey [x] ++ tail) =
      .mismatch (crc32 (bigKey ++ [x])) (crc32 [0]) := by
  have e1 : encodeRecord bigKey [x] ++ tail =
      u32be (crc32 (bigKey ++ [x])) ++ (u32be 0 ++ (u32be 1 ++ ((bigKey ++ [x]) ++ tail))) := by
    unfold encodeRecord
    rw [show bigKey.length % 2 ^ 32 = 0 from by
      rw [show bigKey.length = 2 ^ 32 from by unfold bigKey; rw [List.length_replicate]]
      exact Nat.mod_self _]
    rw [show ([x] : List Nat).length % 2 ^ 32 = 1 from by norm_num]
    simp [List.append_assoc]
  rw [e1]
  unfold processRecord
  simp only [readU32_u32be _ (crc32_lt (bigKey ++ [x])),
    readU32_u32be _ (show (0 : Nat) < 2 ^ 32 from by norm_num),
    readU32_u32be _ (show (1 : Nat) < 2 ^ 32 from by norm_num)]
  have htake : ((bigKey ++ [x]) ++ tail).take ((0 + 1) % 2 ^ 32) = [0] := by
    rw [show ((0 + 1) % 2 ^ 32 : Nat) = 1 from by norm_num]
    rw [bigKey_cons]
    rw [List.cons_append, List.cons_append, show (1 : Nat) = 0 + 1 from rfl,
      List.take_succ_cons, List.take_zero]
  rw [htake]
  rw [if_pos (crc32_bigKey_append_ne h0 hx)]

/-- A record header followed by a short payload (EOF mid-payload): the
reader takes whatever bytes exist and reports a checksum mismatch
whenever the stored checksum does not match the truncated payload. -/
theorem processRecord_truncated (saved kl vl : Nat) (payload : List Nat)
    (hkl : kl < 2 ^ 32) (hvl : vl < 2 ^ 32) (hsum : kl + vl < 2 ^ 32)
    (hsaved : saved < 2 ^ 32) (hpay : payload.length < kl + vl)
    (hne : saved ≠ crc32 payload) :
    processRecord (u32be saved ++ (u32be kl ++ (u32be vl ++ payload))) =
      .mismatch saved (crc32 payload) := by
  unfold processRecord
  simp only [readU32_u32be _ hsaved, readU32_u32be _ hkl, readU32_u32be _ hvl]
  have htake : payload.take ((kl + vl) % 2 ^ 32) = payload := by
    rw [Nat.mod_eq_of_lt hsum]
    exact List.take_of_length_le (le_of_lt hpay)
  rw [htake, if_pos hne]

theorem encodeLog_nil : encodeLog [] = [] := rfl

theorem encodeLog_cons (p : List Nat × List Nat) (t : List (List Nat × List Nat)) :
    encodeLog (p :: t) = encodeRecord p.1 p.2 ++ encodeLog t := by
  simp [encodeLog]

/-- The recovery scan accepts any log made of whole records followed by
a fragment shorter than one 12-byte header. -/
theorem loadScan_records_then_fragment :
    ∀ pairs : List (List Nat × List Nat),
      (∀ p ∈ pairs, p.1.length + p.2.length < 2 ^ 32) →
      ∀ frag : List Nat, frag.length < 12 →
      ∀ (pos : Nat) (db : List (List Nat × Nat)),
        ∃ db', loadScan (encodeLog pairs ++ frag) pos db = .done db' := by
  intro pairs
  induction pairs with
  | nil =>
    intro _ frag hf pos db
    refine ⟨db, ?_⟩
    rw [encodeLog_nil, List.nil_append]
    exact loadScan_eof (processRecord_short hf)
  | cons p t ih =>
    intro hb frag hf pos db
    have hsum : p.1.length + p.2.length < 2 ^ 32 := hb p (by simp)
    have e : encodeLog (p :: t) ++ frag = encodeRecord p.1 p.2 ++ (encodeLog t ++ frag) := by
      rw [encodeLog_cons, List.append_assoc]
    rw [e, loadScan_ok (processRecord_encode p.1 p.2 _ hsum)]
    exact ih (fun q hq => hb q (by simp [hq])) frag hf _ _

/-- The recovery scan aborts with the checksum-mismatch error when the
log ends with a record truncated inside its payload (and the truncated
payload's checksum does not collide). -/
theorem loadScan_records_then_truncated :
    ∀ pairs : List (List Nat × List Nat),
      (∀ p ∈ pairs, p.1.length + p.2.length < 2 ^ 32) →
      ∀ (saved kl vl : Nat) (payload : List Nat),
        kl < 2 ^ 32 → vl < 2 ^ 32 → kl + vl < 2 ^ 32 → saved < 2 ^ 32 →
        payload.length < kl + vl → saved ≠ crc32 payload →
      ∀ (pos : Nat) (db : List (List Nat × Nat)),
        loadScan (encodeLog pairs ++ (u32be saved ++ (u32be kl ++ (u32be vl ++ payload))))
          pos db = .corrupt saved (crc32 payload) := by
  intro pairs
  induction pairs with
  | nil =>
    intro _ saved kl vl payload hkl hvl hsum hsaved hpay hne pos db
    rw [encodeLog_nil, List.nil_append]
    exact loadScan_corrupt
      (processRecord_truncated saved kl vl payload hkl hvl hsum hsaved hpay hne)
  | cons p t ih =>
    intro hb saved kl vl payload hkl hvl hsum hsaved hpay hne pos db
    have hp : p.1.length + p.2.length < 2 ^ 32 := hb p (by simp)
    have e : encodeLog (p :: t) ++ (u32be saved ++ (u32be kl ++ (u32be vl ++ payload))) =
        encodeRecord p.1 p.2 ++
          (encodeLog t ++ (u32be saved ++ (u32be kl ++ (u32be vl ++ payload)))) := by
      rw [encodeLog_cons, List.append_assoc]
    rw [e, loadScan_ok (processRecord_encode p.1 p.2 _ hp)]
    exact ih (fun q hq => hb q (by simp [hq])) saved kl vl payload hkl hvl hsum hsaved
      hpay hne _ _

/-- `get` surfaces a checksum mismatch found at the resolved offset. -/
theorem get_mismatch_eq (st : ActionKV) (k : List Nat) (p s c : Nat)
    (hl : lookupAssoc st.database k = some p)
    (hp : processRecord (st.file.drop p) = .mismatch s c) :
    (st.get k).1 = .error (.mismatch s c) := by
  unfold ActionKV.get
  simp only [hl, hp]

/-! ## Claim theorems -/

/-- C1: the claim says `delete(k)` (with `k` present) succeeds and a
subsequent `get(k)` returns the empty string, the index entry having
been repointed at the appended tombstone.  The code appends the
tombstone but never updates the index (`delete` binds the result of
`insert_in_database` to `_` and touches `self.database` no further), so
`get` still resolves the old record: from a fresh store, after
`insert "a" "1"` and a successful `delete "a"`, `get "a"` returns
`"1"`, not `""`. -/
theorem c1_delete_then_get_returns_old_value :
    openDb [] = .ok freshStore ∧
    (delete (freshStore.insert [97] [49]) [97]).1 = .ok () ∧
    ((delete (freshStore.insert [97] [49]) [97]).2.get [97]).1 = .ok [49] ∧
    ((delete (freshStore.insert [97] [49]) [97]).2.get [97]).1 ≠ .ok [] := by
  refine ⟨?_, by decide, by decide, by decide⟩
  unfold openDb
  rw [loadScan_eof (by decide)]
  rfl

/-- C3: the claim says closing and reopening yields an observably
equivalent index.  After `insert "a" "1"; delete "a"` the in-memory
index still maps `"a"` to the first record (`get` returns `"1"`), but
the reopened store's scan indexes the tombstone (`get` returns `""`):
the two stores are observably different. -/
theorem c3_reopen_not_equivalent :
    ((delete (freshStore.insert [97] [49]) [97]).2.get [97]).1 = .ok [49] ∧
    (openDb (delete (freshStore.insert [97] [49]) [97]).2.file).map
      (fun st => (st.get [97]).1) = .ok (.ok []) ∧
    (Except.ok [49] : Except DbError (List Nat)) ≠ .ok [] := by
  refine ⟨by decide, ?_, by decide⟩
  have hfile : (delete (freshStore.insert [97] [49]) [97]).2.file =
      encodeRecord [97] [49] ++ encodeRecord [97] [] := by decide
  rw [hfile]
  unfold openDb
  rw [loadScan_ok (show processRecord (encodeRecord [97] [49] ++ encodeRecord [97] []) =
    .ok [97] [49] (encodeRecord [97] []) from by decide)]
  rw [loadScan_ok (show processRecord (encodeRecord [97] []) = .ok [97] [] [] from by
    decide)]
  rw [loadScan_eof (show processRecord ([] : List Nat) = .eof from by decide)]
  decide

/-- C5: the claim says a failing append inside `delete` surfaces to the
caller.  The code (line 46) binds the `Result` of `insert_in_database`
to `_` and returns `Ok(())` unconditionally: whatever the append
returned — including any error — `delete` reports success. -/
theorem c5_delete_swallows_append_error :
    deleteOutcome true (.error (.mismatch 0 0)) = .ok () ∧
    ∀ appendResult : Except DbError Nat, deleteOutcome true appendResult = .ok () :=
  ⟨rfl, fun _ => rfl⟩

/-- C8: the claim says the append returns the offset at which the
record begins.  The code captures `stream_position()` *before* the
`seek(SeekFrom::End(0))`, so from a state whose shared cursor is not at
end of file (file of 12 bytes, cursor 0) the record is appended at
offset 12 but the function returns the stale cursor 0. -/
theorem c8_append_returns_stale_cursor :
    (insertInDatabase ⟨List.replicate 12 0, 0, []⟩ [107] [118]).1 = 0 ∧
    (insertInDatabase ⟨List.replicate 12 0, 0, []⟩ [107] [118]).2.file =
      List.replicate 12 0 ++ encodeRecord [107] [118] ∧
    (List.replicate 12 0 : List Nat).length = 12 ∧ (0 : Nat) ≠ 12 :=
  ⟨rfl, rfl, by decide, by decide⟩

/-- C9: the index invariant (every entry points at a valid record whose
key equals the index key) holds of the displayed state but is destroyed
by one `insert`, because `insert_in_database` returns the stale shared
cursor (0) instead of the record's true offset (the old end of file):
the new entry for `"b"` points at the record for `"a"`. -/
theorem c9_index_invariant_broken :
    IndexOk ⟨encodeRecord [97] [49], 0, [([97], 0)]⟩ ∧
    ¬ IndexOk (ActionKV.insert ⟨encodeRecord [97] [49], 0, [([97], 0)]⟩ [98] [50]) := by
  constructor
  · intro k p hlook
    simp only [lookupAssoc] at hlook
    by_cases hk : ([97] : List Nat) = k
    · rw [if_pos hk] at hlook
      injection hlook with hp
      subst hk
      rw [← hp]
      exact ⟨[49], [], by decide⟩
    · rw [if_neg hk] at hlook
      cases hlook
  · intro h
    obtain ⟨v, rest, heq⟩ := h [98] 0 (by decide)
    rw [show processRecord
        ((ActionKV.insert ⟨encodeRecord [97] [49], 0, [([97], 0)]⟩ [98] [50]).file.drop 0) =
        .ok [97] [49] (encodeRecord [98] [50]) from by decide] at heq
    injection heq with h1 h2 h3
    exact absurd h1 (by decide)

/-- C10 counterexample: a stream that ends after the 12-byte header,
whose stored checksum `0xFFFFFFFF` equals the CRC of the empty payload
actually read, while `key_length = 1` exceeds the 0 bytes read: the
claim says the split is then in bounds, but `process_record` reaches
`split_at` out of bounds — a panic, not a record or an error. -/
theorem c10_checksum_collision_panics :
    processRecord [0xFF, 0xFF, 0xFF, 0xFF, 0, 0, 0, 1, 0, 0, 0, 0] = .panicRes := by
  decide

/-- C10 amended: whenever the stream supplies at least
`key_length + value_length` payload bytes and that sum does not
overflow `u32`, `process_record` returns a record or an error and the
split is in bounds — no panic. -/
theorem c10_no_panic_with_full_payload (saved kl vl : Nat) (rest : List Nat)
    (hsum : kl + vl < 2 ^ 32) (hlen : kl + vl ≤ rest.length) :
    processRecord (u32be saved ++ (u32be kl ++ (u32be vl ++ rest))) ≠ .panicRes := by
  have hkl : kl < 2 ^ 32 := by omega
  have hvl : vl < 2 ^ 32 := by omega
  unfold processRecord
  simp only [readU32_u32be_mod saved, readU32_u32be _ hkl, readU32_u32be _ hvl]
  rw [Nat.mod_eq_of_lt hsum]
  split
  · simp
  · rw [if_pos (by rw [List.length_take]; omega)]
    simp

theorem c10_no_panic_witness :
    processRecord (u32be (crc32 [7]) ++ (u32be 1 ++ (u32be 0 ++ [7]))) ≠ .panicRes :=
  c10_no_panic_with_full_payload (crc32 [7]) 1 0 [7] (by norm_num) (by norm_num)

/-- C2 counterexample: for the key of `2 ^ 32` NUL bytes (value `"x"`),
`key.len() as u32` truncates to 0, so the reader takes a 1-byte payload
whose checksum cannot match the stored one: `get` after `insert`
returns a checksum-mismatch error, not the value. -/
theorem c2_roundtrip_fails_for_huge_key :
    ((freshStore.insert bigKey [120]).get bigKey).1 ≠ .ok [120] := by
  have hl : lookupAssoc (freshStore.insert bigKey [120]).database bigKey =
      some freshStore.cursor := by
    rw [insert_database_eq]
    simp only [lookupAssoc_insertAssoc_self]
  have hdrop : (freshStore.insert bigKey [120]).file.drop freshStore.cursor =
      encodeRecord bigKey [120] ++ [] := by
    rw [insert_file_eq]
    rw [show freshStore.cursor = 0 from rfl, List.drop_zero,
      show freshStore.file = ([] : List Nat) from rfl, List.nil_append, List.append_nil]
  have hp : processRecord ((freshStore.insert bigKey [120]).file.drop freshStore.cursor) =
      .mismatch (crc32 (bigKey ++ [120])) (crc32 [0]) := by
    rw [hdrop, processRecord_bigRecord 120 [] (by norm_num) (by norm_num)]
  rw [get_mismatch_eq _ _ _ _ _ hl hp]
  simp

/-- C2 amended: `insert(k, v)` followed by `get(k)` returns exactly `v`
whenever the shared cursor is at end of file when `insert` runs (true
of every state reached by open/insert/update/delete alone) and
`k.len() + v.len()` fits in `u32`. -/
theorem c2_insert_get_roundtrip (st : ActionKV) (k v : List Nat)
    (hcur : st.cursor = st.file.length)
    (hsum : k.length + v.length < 2 ^ 32) (hv : lossyDecode v = v) :
    ((st.insert k v).get k).1 = .ok v :=
  get_insert_eq st k v hcur hsum hv

theorem c2_insert_get_roundtrip_witness :
    ((freshStore.insert [97] [49]).get [97]).1 = .ok [49] :=
  c2_insert_get_roundtrip freshStore [97] [49] rfl (by norm_num) (by decide)

/-- C7 counterexample: with the `2 ^ 32`-NUL-byte key, the second
`insert` is indexed at the correct offset, but the truncated `u32`
length fields make `get` read a 1-byte payload whose checksum cannot
match: `get` errors instead of returning `v2`. -/
theorem c7_lww_fails_for_huge_key :
    (((freshStore.insert bigKey [120]).insert bigKey [121]).get bigKey).1 ≠ .ok [121] := by
  have hl : lookupAssoc ((freshStore.insert bigKey [120]).insert bigKey [121]).database
      bigKey = some (freshStore.insert bigKey [120]).cursor := by
    rw [insert_database_eq]
    simp only [lookupAssoc_insertAssoc_self]
  have hdrop : ((freshStore.insert bigKey [120]).insert bigKey [121]).file.drop
      (freshStore.insert bigKey [120]).cursor = encodeRecord bigKey [121] ++ [] := by
    rw [insert_file_eq]
    rw [insert_cursor_eq_length, List.drop_left, List.append_nil]
  have hp : processRecord (((freshStore.insert bigKey [120]).insert bigKey [121]).file.drop
      (freshStore.insert bigKey [120]).cursor) =
      .mismatch (crc32 (bigKey ++ [121])) (crc32 [0]) := by
    rw [hdrop, processRecord_bigRecord 121 [] (by norm_num) (by norm_num)]
  rw [get_mismatch_eq _ _ _ _ _ hl hp]
  simp

/-- C7 amended: after `insert(k, v1)` then `insert(k, v2)` (any `v1`),
`get(k)` returns exactly `v2`, provided `k.len() + v2.len()` fits in
`u32` — the second record is appended after the first and the index
points at it. -/
theorem c7_last_write_wins (st : ActionKV) (k v1 v2 : List Nat)
    (hsum : k.length + v2.length < 2 ^ 32) (hv : lossyDecode v2 = v2) :
    (((st.insert k v1).insert k v2).get k).1 = .ok v2 :=
  get_insert_eq (st.insert k v1) k v2 (insert_cursor_eq_length st k v1) hsum hv

theorem c7_last_write_wins_witness :
    (((freshStore.insert [98] [50]).insert [98] [51]).get [98]).1 = .ok [51] :=
  c7_last_write_wins freshStore [98] [50] [51] (by norm_num) (by decide)

/-- C4 counterexample: a log holding one valid (empty-key, empty-value)
record followed by a single stray byte ends part-way through the next
12-byte header; the claim says `open` must fail, but the scan treats
the `UnexpectedEof` raised inside `read_u32` as clean termination and
`open` succeeds. -/
theorem c4_partial_header_opens_ok :
    openDb (encodeRecord [] [] ++ [0]) =
      .ok ⟨encodeRecord [] [] ++ [0], 13, [([], 0)]⟩ := by
  unfold openDb
  rw [loadScan_ok (show processRecord (encodeRecord [] [] ++ [0]) = .ok [] [] [0] from by
    decide)]
  rw [loadScan_eof (show processRecord [0] = .eof from by decide)]
  rfl

/-- C4 amended: the recovery scan terminates successfully when
end-of-stream occurs at a record boundary or anywhere within the
12-byte header (any trailing fragment shorter than 12 bytes is silently
accepted), and it aborts with the checksum-mismatch error when the file
ends inside a record's payload and the truncated payload's checksum
does not happen to match the stored one. -/
theorem c4_scan_termination :
    (∀ pairs : List (List Nat × List Nat),
      (∀ p ∈ pairs, p.1.length + p.2.length < 2 ^ 32) →
      ∀ frag : List Nat, frag.length < 12 →
      ∀ (pos : Nat) (db : List (List Nat × Nat)),
        ∃ db', loadScan (encodeLog pairs ++ frag) pos db = .done db') ∧
    (∀ pairs : List (List Nat × List Nat),
      (∀ p ∈ pairs, p.1.length + p.2.length < 2 ^ 32) →
      ∀ (saved kl vl : Nat) (payload : List Nat),
        kl < 2 ^ 32 → vl < 2 ^ 32 → kl + vl < 2 ^ 32 → saved < 2 ^ 32 →
        payload.length < kl + vl → saved ≠ crc32 payload →
      ∀ (pos : Nat) (db : List (List Nat × Nat)),
        loadScan (encodeLog pairs ++ (u32be saved ++ (u32be kl ++ (u32be vl ++ payload))))
          pos db = .corrupt saved (crc32 payload)) :=
  ⟨loadScan_records_then_fragment, loadScan_records_then_truncated⟩

theorem c4_scan_termination_witness :
    (∃ db', loadScan (encodeLog [([97], [49])] ++ [0]) 0 [] = .done db') ∧
    loadScan (encodeLog [] ++ (u32be 0 ++ (u32be 1 ++ (u32be 0 ++ [])))) 0 [] =
      .corrupt 0 (crc32 []) :=
  ⟨c4_scan_termination.1 [([97], [49])] (by decide) [0] (by norm_num) 0 [],
   c4_scan_termination.2 [] (by simp) 0 1 0 [] (by norm_num) (by norm_num) (by norm_num)
     (by norm_num) (by norm_num) (by decide) 0 []⟩

/-- C6: flipping any single bit inside a record's key or value bytes on
disk makes any read of that record report the checksum-mismatch
(corruption) error rather than a value: `process_record` on the
corrupted bytes, and `get` on a store whose index resolves a key to
that record's offset, both surface the mismatch of the stored checksum
(over the original payload) against the recomputed one (over the
flipped payload). -/
theorem c6_bit_flip_detected (key value rest front : List Nat)
    (db : List (List Nat × Nat)) (qk : List Nat) (cur : Nat) (j b : Nat)
    (hj : j < (key ++ value).length) (hb : b < 8)
    (hsum : key.length + value.length < 2 ^ 32)
    (hlook : lookupAssoc db qk = some front.length) :
    processRecord (corruptRecord key value j b ++ rest) =
      .mismatch (crc32 (key ++ value)) (crc32 (flipBit (key ++ value) j b)) ∧
    ((⟨front ++ (corruptRecord key value j b ++ rest), cur, db⟩ : ActionKV).get qk).1 =
      .error (.mismatch (crc32 (key ++ value)) (crc32 (flipBit (key ++ value) j b))) := by
  have hA := processRecord_corruptRecord key value rest j b hj hb hsum
  refine ⟨hA, ?_⟩
  unfold ActionKV.get
  simp only [hlook, List.drop_left, hA]

theorem c6_bit_flip_detected_witness :
    processRecord (corruptRecord [97] [49] 0 0 ++ []) =
      .mismatch (crc32 ([97] ++ [49])) (crc32 (flipBit ([97] ++ [49]) 0 0)) ∧
    ((⟨[] ++ (corruptRecord [97] [49] 0 0 ++ []), 0, [([97], 0)]⟩ : ActionKV).get [97]).1 =
      .error (.mismatch (crc32 ([97] ++ [49])) (crc32 (flipBit ([97] ++ [49]) 0 0))) :=
  c6_bit_flip_detected [97] [49] [] [] [([97], 0)] [97] 0 0 0 (by decide) (by decide)
    (by norm_num) (by decide)
